import Mathlib

/-!
Verification of the BlackjackCLI core engine: a shallow embedding of the
hand evaluator (`Participant.getCardTotal`), blackjack detection, the dealer
hit rule (`Dealer.shouldHit`), the round outcome decision table and payout
(`GameEngine.evaluateOutcome` / `applyPayout`), the betting operation
(`GameEngine.placeBet` with `Player.adjustBalance`), and the shoe manager
(`DeckManager`: creation with the fixed cut-card position, single- and
multi-card draws, reshuffle, `shouldReshuffle`).

JavaScript numbers are modelled as ℚ (money) and ℤ/ℕ (counts); fallible
operations return `Except String`; the asynchronous card source is modelled
by passing its response as an explicit argument.
-/

namespace Blackjack

/-- The thirteen card ranks of `src/types/Card.ts` (`CardRank`). -/
inductive CardRank where
  | r2 | r3 | r4 | r5 | r6 | r7 | r8 | r9 | r10
  | J | Q | K | A
deriving DecidableEq, Repr

/-- The four suits of `src/types/Card.ts` (`CardSuit`). -/
inductive CardSuit where
  | HEARTS | CLUBS | DIAMONDS | SPADES
deriving DecidableEq, Repr

/-- `Card` from `src/types/Card.ts`: code, suit, rank. -/
structure Card where
  code : String
  suit : CardSuit
  rank : CardRank
deriving DecidableEq, Repr

/-- `getCardValue` from `src/types/Card.ts`: Ace is 11 by default (treated
specially by the evaluator), J/Q/K are 10, number ranks their face value. -/
def getCardValue (card : Card) : Nat :=
  match card.rank with
  | .A => 11
  | .J => 10
  | .Q => 10
  | .K => 10
  | .r2 => 2
  | .r3 => 3
  | .r4 => 4
  | .r5 => 5
  | .r6 => 6
  | .r7 => 7
  | .r8 => 8
  | .r9 => 9
  | .r10 => 10

/-- `CardTotal` from `src/shared/Participant.ts`. -/
structure CardTotal where
  value : Nat
  hasSoftAce : Bool
deriving DecidableEq, Repr

/-- The first pass of `Participant.getCardTotal`: a left-to-right loop over
the hand accumulating `(numberOfAces, totalValue)`, where non-Ace cards are
summed at `getCardValue` and Aces only counted. -/
def firstPass (cards : List Card) : Nat × Nat :=
  cards.foldl
    (fun acc card =>
      if card.rank = CardRank.A then (acc.1 + 1, acc.2) else (acc.1, acc.2 + getCardValue card))
    (0, 0)

/-- The second pass of `Participant.getCardTotal`: the loop
`for (let i = numberOfAces - 1; i >= 0; i--)`, here driven by the number of
iterations still to run (so the current loop index is the predecessor of the
first argument).  Only at loop index 0 and only when `totalValue + 11 ≤ 21`
is the Ace worth 11 and `hasSoftAce` set; every other Ace adds 1. -/
def acesLoop : Nat → Nat → Bool → Nat × Bool
  | 0, totalValue, hasSoftAce => (totalValue, hasSoftAce)
  | i + 1, totalValue, hasSoftAce =>
    if i = 0 ∧ totalValue + 11 ≤ 21 then acesLoop i (totalValue + 11) true
    else acesLoop i (totalValue + 1) hasSoftAce

/-- `Participant.getCardTotal` from `src/shared/Participant.ts`. -/
def getCardTotal (cards : List Card) : CardTotal :=
  let p := firstPass cards
  let r := acesLoop p.1 p.2 false
  { value := r.1, hasSoftAce := r.2 }

/-- `Participant.hasBlackjack`: value 21 with exactly 2 cards. -/
def hasBlackjack (cards : List Card) : Bool :=
  cards.length = 2 ∧ (getCardTotal cards).value = 21

/-- `Dealer.getUpcard` from `src/game/Dealer.ts`: the first card, or none. -/
def getUpcard (cards : List Card) : Option Card :=
  match cards with
  | c :: _ => some c
  | [] => none

/-- `Dealer.shouldHit` from `src/game/Dealer.ts`: hit below 17 and on soft 17. -/
def shouldHit (cards : List Card) : Bool :=
  let t := getCardTotal cards
  t.value < 17 ∨ (t.value = 17 ∧ t.hasSoftAce)

/-- `Outcome` from `src/game/GameEngine.ts`. -/
inductive Outcome where
  | PlayerWon | DealerWon | Push | PlayerWonWithBlackjack | DealerWonWithBlackjack
deriving DecidableEq, Repr

/-- The decision table of `GameEngine.evaluateOutcome` (the outcome it
assigns to `this.outcome`), as a function of the two hands. -/
def evaluateOutcome (playerCards dealerCards : List Card) : Outcome :=
  let playerTotal := (getCardTotal playerCards).value
  let dealerTotal := (getCardTotal dealerCards).value
  let playerHasBlackjack := hasBlackjack playerCards
  let dealerHasBlackjack := hasBlackjack dealerCards
  if playerHasBlackjack ∧ ¬dealerHasBlackjack then .PlayerWonWithBlackjack
  else if dealerHasBlackjack ∧ ¬playerHasBlackjack then .DealerWonWithBlackjack
  else if playerTotal > 21 then .DealerWon
  else if dealerTotal > 21 then .PlayerWon
  else if playerTotal > dealerTotal then .PlayerWon
  else if dealerTotal > playerTotal then .DealerWon
  else .Push

/-- `Player` from `src/player/Player.ts`: balance, active bet, and the hand
inherited from `Participant` (storage and username are I/O glue, omitted). -/
structure Player where
  balance : ℚ
  bet : ℚ
  cards : List Card
deriving DecidableEq

/-- `Player.adjustBalance`: `this.balance += amount`. -/
def adjustBalance (p : Player) (amount : ℚ) : Player :=
  { p with balance := p.balance + amount }

/-- `GameEngine.placeBet`: throws when the bet exceeds the balance, otherwise
records the stake and debits it. -/
def placeBet (p : Player) (bet : ℚ) : Except String Player :=
  if bet > p.balance then .error "Cannot bet more than the player balance"
  else .ok (adjustBalance { p with bet := bet } (-bet))

/-- The mutable round state of `GameEngine`: the player, the dealer's hand,
and the recorded outcome and winnings of the last round (null before). -/
structure GameState where
  player : Player
  dealerCards : List Card
  outcome : Option Outcome
  winnings : Option ℚ
deriving DecidableEq

/-- `GameEngine.applyPayout`: computes the payout from the recorded outcome
and the active stake (`payout` stays 0 when no case matches), records it as
`winnings` and credits it to the player's balance. -/
def applyPayout (s : GameState) : GameState :=
  let bet := s.player.bet
  let payout : ℚ :=
    match s.outcome with
    | some .PlayerWonWithBlackjack => bet + bet * 1.5
    | some .PlayerWon => bet + bet
    | some .Push => bet
    | some .DealerWon => 0
    | some .DealerWonWithBlackjack => 0
    | none => 0
  { s with winnings := some payout, player := adjustBalance s.player payout }

/-- `GameEngine.evaluateOutcome` as a state transformer: records the outcome
of the two hands and then applies the payout. -/
def evaluateOutcomeStep (s : GameState) : GameState :=
  applyPayout { s with outcome := some (evaluateOutcome s.player.cards s.dealerCards) }

/-- `DeckManager` from `src/game/DeckManager.ts`: shoe identity, remaining
count as reported by the card source, and the cut-card position fixed at
construction. -/
structure DeckManager where
  deckId : String
  remaining : ℤ
  cutCardPosition : ℤ
deriving DecidableEq

/-- `CUT_CARD_PERCENTAGE` from `src/game/DeckManager.ts`. -/
def CUT_CARD_PERCENTAGE : ℚ := 0.775

/-- The private `DeckManager` constructor: stores the reported remaining
count and fixes `cutCardPosition = Math.round(remaining * (1 - CUT_CARD_PERCENTAGE))`. -/
def DeckManager.create (deckId : String) (remaining : ℤ) : DeckManager :=
  { deckId := deckId
    remaining := remaining
    cutCardPosition := round ((remaining : ℚ) * (1 - CUT_CARD_PERCENTAGE)) }

/-- A response of the external card source's draw endpoint: the delivered
cards and the reported remaining count. -/
structure DrawResult where
  cards : List Card
  remaining : ℤ
deriving DecidableEq

/-- `DeckManager.drawCard` applied to the card source's response: fails
unless exactly one card was delivered, otherwise updates `remaining` to the
reported value and returns the card. -/
def DeckManager.drawCard (dm : DeckManager) (result : DrawResult) :
    Except String (Card × DeckManager) :=
  match result.cards with
  | [card] => .ok (card, { dm with remaining := result.remaining })
  | cs =>
    .error ("Wrong number of cards drawn.  Expected 1, Received: " ++ toString cs.length)

/-- `DeckManager.drawCards` applied to the card source's response: no
count-mismatch check — updates `remaining` to the reported value and returns
the delivered cards as they came. -/
def DeckManager.drawCards (dm : DeckManager) (count : Nat) (result : DrawResult) :
    Except String (List Card × DeckManager) :=
  .ok (result.cards, { dm with remaining := result.remaining })

/-- `DeckManager.reshuffle` applied to the card source's reported post-shuffle
remaining count: updates `remaining` only. -/
def DeckManager.reshuffle (dm : DeckManager) (reportedRemaining : ℤ) : DeckManager :=
  { dm with remaining := reportedRemaining }

/-- `DeckManager.shouldReshuffle`: `remaining < cutCardPosition`. -/
def DeckManager.shouldReshuffle (dm : DeckManager) : Bool :=
  dm.remaining < dm.cutCardPosition

/-! ### Vocabulary for stating the claims -/

/-- Number of Aces in a hand (used to state the hand-evaluator claims). -/
def aceCount : List Card → Nat
  | [] => 0
  | c :: cs => (if c.rank = CardRank.A then 1 else 0) + aceCount cs

/-- Sum of the non-Ace cards of a hand at face value (J/Q/K as 10). -/
def nonAceSum : List Card → Nat
  | [] => 0
  | c :: cs => (if c.rank = CardRank.A then 0 else getCardValue c) + nonAceSum cs

/-- The hand total under the assignment counting `k` Aces as 11 and the
remaining Aces as 1 (meaningful for `k ≤ aceCount cards`). -/
def assignTotal (cards : List Card) (k : Nat) : Nat :=
  nonAceSum cards + (aceCount cards - k) + 11 * k

/-- The outcome decision table exactly as the specification words it
(first match wins; both-blackjack resolved by the normal 21-vs-21
comparison, i.e. Push). -/
def specOutcome (playerCards dealerCards : List Card) : Outcome :=
  let playerTotal := (getCardTotal playerCards).value
  let dealerTotal := (getCardTotal dealerCards).value
  let playerHasBlackjack := hasBlackjack playerCards
  let dealerHasBlackjack := hasBlackjack dealerCards
  if playerHasBlackjack ∧ ¬dealerHasBlackjack then .PlayerWonWithBlackjack
  else if dealerHasBlackjack ∧ ¬playerHasBlackjack then .DealerWonWithBlackjack
  else if playerHasBlackjack ∧ dealerHasBlackjack then .Push
  else if playerTotal > 21 then .DealerWon
  else if dealerTotal > 21 then .PlayerWon
  else if playerTotal > dealerTotal then .PlayerWon
  else if dealerTotal > playerTotal then .DealerWon
  else .Push

/-- The payout table as the specification words it: a multiple of the stake
per outcome. -/
def specPayout (outcome : Outcome) (bet : ℚ) : ℚ :=
  match outcome with
  | .PlayerWonWithBlackjack => bet * 2.5
  | .PlayerWon => bet * 2
  | .Push => bet * 1
  | .DealerWon => 0
  | .DealerWonWithBlackjack => 0

/-! ### Concrete cards used in witnesses and counterexamples -/

/-- The Ace of Spades. -/
def cardA : Card := ⟨"AS", .SPADES, .A⟩

/-- The Six of Spades. -/
def card6 : Card := ⟨"6S", .SPADES, .r6⟩

/-- The Seven of Spades. -/
def card7 : Card := ⟨"7S", .SPADES, .r7⟩

/-- The Eight of Hearts. -/
def card8 : Card := ⟨"8H", .HEARTS, .r8⟩

/-- The Nine of Spades. -/
def card9 : Card := ⟨"9S", .SPADES, .r9⟩

/-- The King of Spades. -/
def cardK : Card := ⟨"KS", .SPADES, .K⟩

/-! ### Helper lemmas about the hand evaluator -/

/-- The accumulating loop of `firstPass`, generalized over the accumulator. -/
theorem firstPass_go (cards : List Card) (a t : Nat) :
    cards.foldl
      (fun acc card =>
        if card.rank = CardRank.A then (acc.1 + 1, acc.2) else (acc.1, acc.2 + getCardValue card))
      (a, t) = (a + aceCount cards, t + nonAceSum cards) := by
  induction cards generalizing a t with
  | nil => simp [aceCount, nonAceSum]
  | cons c cs ih =>
    by_cases h : c.rank = CardRank.A <;>
      simp [List.foldl, h, aceCount, nonAceSum, ih] <;> ring_nf

/-- `firstPass` counts the Aces and sums the non-Ace cards. -/
theorem firstPass_eq (cards : List Card) :
    firstPass cards = (aceCount cards, nonAceSum cards) := by
  simpa using firstPass_go cards 0 0

/-- Closed form of `acesLoop` started on at least one pending Ace with the
soft flag clear: the one reserved Ace is worth 11 exactly when that keeps
the total within 21. -/
theorem acesLoop_succ (j total : Nat) :
    acesLoop (j + 1) total false =
      if total + j + 11 ≤ 21 then (total + j + 11, true) else (total + j + 1, false) := by
  induction j generalizing total with
  | zero => simp [acesLoop]
  | succ m ih =>
    have hne : ¬(m + 1 = 0 ∧ total + 11 ≤ 21) := by omega
    rw [acesLoop, if_neg hne, ih]
    split_ifs <;> simp_all [Prod.ext_iff] <;> omega

/-- Closed form of `getCardTotal` in terms of the Ace count and the non-Ace
sum of the hand. -/
theorem getCardTotal_eq (cards : List Card) :
    getCardTotal cards =
      if aceCount cards = 0 then ⟨nonAceSum cards, false⟩
      else if nonAceSum cards + (aceCount cards - 1) + 11 ≤ 21 then
        ⟨nonAceSum cards + (aceCount cards - 1) + 11, true⟩
      else ⟨nonAceSum cards + aceCount cards, false⟩ := by
  unfold getCardTotal
  rw [firstPass_eq]
  cases h : aceCount cards with
  | zero => simp [acesLoop]
  | succ m =>
    dsimp only
    rw [acesLoop_succ]
    split_ifs <;> simp_all [CardTotal.mk.injEq] <;> omega

/-- The hand value is at least the all-Aces-as-1 minimal total. -/
theorem minTotal_le_value (cards : List Card) :
    nonAceSum cards + aceCount cards ≤ (getCardTotal cards).value := by
  rw [getCardTotal_eq]
  split_ifs <;> dsimp only <;> omega

/-- A hand without a soft Ace is valued at its minimal total. -/
theorem value_of_hard (cards : List Card) (h : (getCardTotal cards).hasSoftAce = false) :
    (getCardTotal cards).value = nonAceSum cards + aceCount cards := by
  have he := getCardTotal_eq cards
  rw [he] at h ⊢
  split_ifs at h ⊢ <;> simp_all

/-- `aceCount` distributes over appending a single card. -/
theorem aceCount_append (cards : List Card) (c : Card) :
    aceCount (cards ++ [c]) = aceCount cards + (if c.rank = CardRank.A then 1 else 0) := by
  induction cards with
  | nil => simp [aceCount]
  | cons d ds ih => simp [aceCount, ih]; omega

/-- `nonAceSum` distributes over appending a single card. -/
theorem nonAceSum_append (cards : List Card) (c : Card) :
    nonAceSum (cards ++ [c]) =
      nonAceSum cards + (if c.rank = CardRank.A then 0 else getCardValue c) := by
  induction cards with
  | nil => simp [nonAceSum]
  | cons d ds ih => simp [nonAceSum, ih]; ring

/-- Every card is worth at least 1. -/
theorem one_le_getCardValue (c : Card) : 1 ≤ getCardValue c := by
  rcases c with ⟨code, suit, rank⟩
  cases rank <;> norm_num [getCardValue]

/-- A hand counts as blackjack only at value 21. -/
theorem hasBlackjack_value (cards : List Card) (h : hasBlackjack cards = true) :
    (getCardTotal cards).value = 21 := by
  simp only [hasBlackjack, decide_eq_true_eq] at h
  exact h.2

/-! ### The claims -/

/-- C1. For every hand, `getCardTotal` returns the best non-busting total
achievable by counting at most one Ace as 11 (non-Ace cards at face value,
J/Q/K as 10), or the minimal all-Aces-as-1 total when every such assignment
exceeds 21; `hasSoftAce` holds iff exactly one Ace is counted as 11; the
empty hand yields value 0 and `hasSoftAce` false. -/
theorem getCardTotal_best_nonbusting (cards : List Card) :
    ((∃ k, k ≤ 1 ∧ k ≤ aceCount cards ∧
        (getCardTotal cards).value = assignTotal cards k ∧
        ((getCardTotal cards).hasSoftAce = true ↔ k = 1)) ∧
      ((∃ k, k ≤ 1 ∧ k ≤ aceCount cards ∧ assignTotal cards k ≤ 21) →
        (getCardTotal cards).value ≤ 21 ∧
          ∀ k, k ≤ 1 → k ≤ aceCount cards → assignTotal cards k ≤ 21 →
            assignTotal cards k ≤ (getCardTotal cards).value) ∧
      ((∀ k, k ≤ 1 → k ≤ aceCount cards → 21 < assignTotal cards k) →
        (getCardTotal cards).value = assignTotal cards 0)) ∧
    getCardTotal [] = ⟨0, false⟩ := by
  rw [getCardTotal_eq]
  split_ifs with h0 h1 <;> dsimp only <;> simp only [assignTotal, h0]
  case _ =>
    refine ⟨⟨⟨0, by omega, by omega, by omega, by simp⟩, ?_, ?_⟩, by decide⟩
    · rintro ⟨k, hk1, hk2, hk3⟩
      exact ⟨by omega, fun j hj1 hj2 hj3 => by omega⟩
    · intro _
      omega
  case _ =>
    refine ⟨⟨⟨1, le_refl 1, by omega, by omega, by simp⟩, ?_, ?_⟩, by decide⟩
    · intro _
      refine ⟨by omega, ?_⟩
      intro j hj1 hj2 hj3
      interval_cases j <;> omega
    · intro hall
      have := hall 1 (le_refl 1) (by omega)
      omega
  case _ =>
    refine ⟨⟨⟨0, by omega, by omega, by omega, by simp⟩, ?_, ?_⟩, by decide⟩
    · rintro ⟨k, hk1, hk2, hk3⟩
      refine ⟨?_, ?_⟩
      · interval_cases k <;> omega
      · intro j hj1 hj2 hj3
        interval_cases j <;> omega
    · intro _
      omega

/-- C1 witness: the best-total clauses instantiated on the concrete hand
Ace + Six, whose value is 17 with a soft Ace. -/
theorem getCardTotal_best_nonbusting_witness :
    (getCardTotal [cardA, card6]).value ≤ 21 ∧
      ∀ k, k ≤ 1 → k ≤ aceCount [cardA, card6] → assignTotal [cardA, card6] k ≤ 21 →
        assignTotal [cardA, card6] k ≤ (getCardTotal [cardA, card6]).value :=
  (getCardTotal_best_nonbusting [cardA, card6]).1.2.1 ⟨1, by decide, by decide, by decide⟩

/-- C2. `evaluateOutcome` follows the specified precedence exactly: player
blackjack vs no dealer blackjack → PlayerWonWithBlackjack; dealer blackjack
vs no player blackjack → DealerWonWithBlackjack; both blackjack → Push (the
normal 21-vs-21 comparison); then player bust → DealerWon regardless of the
dealer's total; then dealer bust → PlayerWon; then the higher total wins and
equal totals push. -/
theorem evaluateOutcome_precedence (playerCards dealerCards : List Card) :
    evaluateOutcome playerCards dealerCards = specOutcome playerCards dealerCards := by
  by_cases hp : hasBlackjack playerCards = true <;>
    by_cases hd : hasBlackjack dealerCards = true
  · have h1 := hasBlackjack_value playerCards hp
    have h2 := hasBlackjack_value dealerCards hd
    simp [evaluateOutcome, specOutcome, hp, hd, h1, h2]
  · simp [evaluateOutcome, specOutcome, hp, hd]
  · simp [evaluateOutcome, specOutcome, hp, hd]
  · simp [evaluateOutcome, specOutcome, hp, hd]

/-- C3. After outcome evaluation the recorded winnings equal the stake times
2.5 for a blackjack win, times 2 for a normal win, times 1 for a push and 0
for a dealer win, and exactly that amount is credited to the player's
balance; at stake 100 this is 250, 200, 100, 0, 0. -/
theorem applyPayout_spec (s : GameState) :
    (evaluateOutcomeStep s).winnings =
        some (specPayout (evaluateOutcome s.player.cards s.dealerCards) s.player.bet) ∧
      (evaluateOutcomeStep s).player.balance =
        s.player.balance +
          specPayout (evaluateOutcome s.player.cards s.dealerCards) s.player.bet ∧
      specPayout .PlayerWonWithBlackjack 100 = 250 ∧ specPayout .PlayerWon 100 = 200 ∧
      specPayout .Push 100 = 100 ∧ specPayout .DealerWon 100 = 0 ∧
      specPayout .DealerWonWithBlackjack 100 = 0 := by
  refine ⟨?_, ?_, by norm_num [specPayout], by norm_num [specPayout],
    by norm_num [specPayout], rfl, rfl⟩ <;>
    cases h : evaluateOutcome s.player.cards s.dealerCards <;>
      simp [evaluateOutcomeStep, applyPayout, adjustBalance, specPayout, h] <;> ring

/-- C4. The dealer hits exactly below 17 or on a soft 17, and consequently
stands on a hard 17 and on every total above 17. -/
theorem shouldHit_spec (cards : List Card) :
    (shouldHit cards = true ↔
        ((getCardTotal cards).value < 17 ∨
          ((getCardTotal cards).value = 17 ∧ (getCardTotal cards).hasSoftAce = true))) ∧
      ((getCardTotal cards).value = 17 → (getCardTotal cards).hasSoftAce = false →
        shouldHit cards = false) ∧
      (17 < (getCardTotal cards).value → shouldHit cards = false) := by
  refine ⟨by simp [shouldHit], ?_, ?_⟩
  · intro h1 h2
    simp [shouldHit, h1, h2]
  · intro h
    simp only [shouldHit]
    simp only [decide_eq_false_iff_not]
    push_neg
    constructor
    · omega
    · intro h17
      omega

/-- C4 witness: the dealer stands on the concrete hard 17 King + Seven. -/
theorem shouldHit_spec_witness : shouldHit [cardK, card7] = false :=
  (shouldHit_spec [cardK, card7]).2.1 (by decide) (by decide)

/-- C5. The cut-card position is fixed at creation to
`round(initial × (1 − 0.775))` and `shouldReshuffle` is the pure predicate
`remaining < cutCardPosition` on the current state, however `remaining` was
reached; a shoe created at 312 gets cut-card position 70, and reshuffle is
needed at remaining 69 but not at 70. -/
theorem shouldReshuffle_cutCard (deckId : String) (n : ℤ) (dm : DeckManager) :
    (DeckManager.create deckId n).cutCardPosition = round ((n : ℚ) * (1 - 0.775)) ∧
      (dm.shouldReshuffle = true ↔ dm.remaining < dm.cutCardPosition) ∧
      (DeckManager.create deckId 312).cutCardPosition = 70 ∧
      DeckManager.shouldReshuffle ⟨deckId, 69, 70⟩ = true ∧
      DeckManager.shouldReshuffle ⟨deckId, 70, 70⟩ = false := by
  refine ⟨rfl, by simp [DeckManager.shouldReshuffle], ?_,
    by simp [DeckManager.shouldReshuffle], by simp [DeckManager.shouldReshuffle]⟩
  show round ((312 : ℚ) * (1 - CUT_CARD_PERCENTAGE)) = 70
  have h : ((312 : ℚ) * (1 - CUT_CARD_PERCENTAGE)) = 70.2 := by
    norm_num [CUT_CARD_PERCENTAGE]
  rw [h, round_eq, Int.floor_eq_iff] <;> norm_num

/-- C6 counterexample: the hand value is not monotone under appending — the
soft 17 of Ace + Six drops to a hard 16 when a Nine is appended. -/
theorem value_monotone_counterexample :
    ¬((getCardTotal [cardA, card6]).value ≤
        (getCardTotal ([cardA, card6] ++ [card9])).value) := by
  decide

/-- C6 amended: the hand value is monotone under appending for hands whose
total has no soft Ace (a soft hand's value can drop when the Ace reverts
to 1), and the dealer loop still exits once the value is at least 17 with no
soft Ace, since `shouldHit` is then false. -/
theorem value_monotone_of_hard (cards : List Card) (c : Card) :
    ((getCardTotal cards).hasSoftAce = false →
      (getCardTotal cards).value ≤ (getCardTotal (cards ++ [c])).value) ∧
      (17 ≤ (getCardTotal cards).value → (getCardTotal cards).hasSoftAce = false →
        shouldHit cards = false) := by
  constructor
  · intro hsoft
    have h1 := value_of_hard cards hsoft
    have h2 := minTotal_le_value (cards ++ [c])
    rw [nonAceSum_append, aceCount_append] at h2
    have h3 := one_le_getCardValue c
    by_cases ha : c.rank = CardRank.A <;> (simp [ha] at h2; omega)
  · intro hv hsoft
    simp only [shouldHit, decide_eq_false_iff_not]
    push_neg
    exact ⟨by omega, fun _ => by simp [hsoft]⟩

/-- C6 witness: appending a Nine to the concrete hard 17 King + Seven does
not decrease the value. -/
theorem value_monotone_of_hard_witness :
    (getCardTotal [cardK, card7]).value ≤ (getCardTotal ([cardK, card7] ++ [card9])).value :=
  (value_monotone_of_hard [cardK, card7] card9).1 (by decide)

/-- C7. `placeBet` fails exactly when the amount exceeds the balance, the
failure carrying no changed state, and otherwise debits the balance by the
amount and records it as the active stake. -/
theorem placeBet_spec (p : Player) (amount : ℚ) :
    (p.balance < amount →
        placeBet p amount = .error "Cannot bet more than the player balance") ∧
      (amount ≤ p.balance →
        placeBet p amount =
          .ok { balance := p.balance - amount, bet := amount, cards := p.cards }) := by
  constructor
  · intro h
    simp [placeBet, h]
  · intro h
    rw [placeBet, if_neg (not_lt.mpr h)]
    simp [adjustBalance, sub_eq_add_neg]

/-- C7 witness: betting 30 from balance 100 succeeds and leaves balance 70
with stake 30. -/
theorem placeBet_spec_witness :
    placeBet ⟨100, 0, []⟩ 30 = .ok { balance := (100 : ℚ) - 30, bet := 30, cards := [] } :=
  (placeBet_spec ⟨100, 0, []⟩ 30).2 (by norm_num)

/-- C8. The single-card draw fails whenever the source delivers other than
exactly one card, while the multi-card draw performs no count check and
returns whatever was delivered; both update `remaining` to the reported
value. -/
theorem drawOne_strict_drawMany_lenient (dm : DeckManager) (count : Nat) (res : DrawResult) :
    dm.drawCards count res = .ok (res.cards, { dm with remaining := res.remaining }) ∧
      (∀ c, res.cards = [c] →
        dm.drawCard res = .ok (c, { dm with remaining := res.remaining })) ∧
      (res.cards.length ≠ 1 →
        dm.drawCard res =
          .error ("Wrong number of cards drawn.  Expected 1, Received: " ++
            toString res.cards.length)) := by
  refine ⟨rfl, ?_, ?_⟩
  · intro c h
    simp [DeckManager.drawCard, h]
  · intro h
    rcases hc : res.cards with _ | ⟨a, _ | ⟨b, l⟩⟩
    · simp [DeckManager.drawCard, hc]
    · simp [hc] at h
    · simp [DeckManager.drawCard, hc]

/-- C8 witness: a zero-card response makes the single-card draw fail on a
freshly created shoe. -/
theorem drawOne_strict_witness :
    DeckManager.drawCard (DeckManager.create "d" 312) ⟨[], 311⟩ =
      .error ("Wrong number of cards drawn.  Expected 1, Received: " ++
        toString (([] : List Card)).length) :=
  (drawOne_strict_drawMany_lenient (DeckManager.create "d" 312) 1 ⟨[], 311⟩).2.2 (by decide)

/-- C9. A reshuffle updates only `remaining` to the reported post-shuffle
value; the cut-card position and the shoe identity are unchanged, so the
same absolute threshold is reused across reshuffles. -/
theorem reshuffle_frame (dm : DeckManager) (reportedRemaining : ℤ) :
    (dm.reshuffle reportedRemaining).remaining = reportedRemaining ∧
      (dm.reshuffle reportedRemaining).cutCardPosition = dm.cutCardPosition ∧
      (dm.reshuffle reportedRemaining).deckId = dm.deckId :=
  ⟨rfl, rfl, rfl⟩

/-- C10. `placeBet` imposes no lower bound: every amount at most the balance
succeeds, including zero and negative amounts; a negative amount strictly
increases the balance while being recorded as the active stake. -/
theorem placeBet_no_lower_bound (p : Player) (amount : ℚ) :
    (amount ≤ p.balance →
        placeBet p amount =
          .ok { balance := p.balance - amount, bet := amount, cards := p.cards }) ∧
      (amount < 0 → amount ≤ p.balance →
        ∃ q, placeBet p amount = .ok q ∧ q.bet = amount ∧ p.balance < q.balance) ∧
      placeBet ⟨100, 0, []⟩ (-5) = .ok { balance := (105 : ℚ), bet := -5, cards := [] } := by
  refine ⟨?_, ?_, ?_⟩
  · intro h
    rw [placeBet, if_neg (not_lt.mpr h)]
    simp [adjustBalance, sub_eq_add_neg]
  · intro hneg h
    refine ⟨{ balance := p.balance - amount, bet := amount, cards := p.cards }, ?_, rfl, ?_⟩
    · rw [placeBet, if_neg (not_lt.mpr h)]
      simp [adjustBalance, sub_eq_add_neg]
    · simp only
      linarith
  · rw [placeBet, if_neg (by norm_num)]
    simp [adjustBalance]
    norm_num

/-- C10 witness: betting −5 from balance 100 succeeds, records stake −5 and
raises the balance. -/
theorem placeBet_no_lower_bound_witness :
    ∃ q, placeBet ⟨100, 0, []⟩ (-5) = .ok q ∧ q.bet = -5 ∧
      (Player.balance ⟨100, 0, []⟩) < q.balance :=
  (placeBet_no_lower_bound ⟨100, 0, []⟩ (-5)).2.1 (by norm_num) (by norm_num)

end Blackjack
